import Mathlib

/-!
Verification of the frame-state projector and dashboard logic of the
`nopium` F1 visualization repository.

The render pipeline of `TrackView` (canvas view), the trail bookkeeping of
`drawCarTrail`, the zoom handler, the minimap transform, the 3D heading
smoothing of `Car3D`, and the ML-insight cache update of `RaceDashboard`
are embedded shallowly below.  JavaScript numbers are modelled by `JSNum`:
an exact rational together with the two infinities and NaN, with the IEEE
special-value rules for the arithmetic the code performs (the sign of zero
is not tracked; no claim here depends on it).  Timestamps are integers
(milliseconds).  The 3D heading arithmetic, which involves pi, is modelled
over the real numbers with the JavaScript truncated remainder.
-/

namespace Nopium

/-- A JavaScript number: a finite rational, positive or negative
infinity, or NaN. -/
inductive JSNum where
  | finite (q : ℚ)
  | inf
  | ninf
  | nan
deriving DecidableEq, Repr

namespace JSNum

/-- JavaScript unary negation. -/
def neg : JSNum → JSNum
  | nan => nan
  | inf => ninf
  | ninf => inf
  | finite a => finite (-a)

/-- JavaScript addition (IEEE rules; the two infinities of opposite sign
give NaN). -/
def add : JSNum → JSNum → JSNum
  | nan, _ => nan
  | _, nan => nan
  | inf, ninf => nan
  | ninf, inf => nan
  | inf, _ => inf
  | _, inf => inf
  | ninf, _ => ninf
  | _, ninf => ninf
  | finite a, finite b => finite (a + b)

/-- JavaScript subtraction, as addition of the negation. -/
def sub (a b : JSNum) : JSNum := add a (neg b)

/-- JavaScript multiplication (IEEE rules; zero times an infinity is
NaN). -/
def mul : JSNum → JSNum → JSNum
  | nan, _ => nan
  | _, nan => nan
  | inf, inf => inf
  | inf, ninf => ninf
  | ninf, inf => ninf
  | ninf, ninf => inf
  | inf, finite b => if b = 0 then nan else if 0 < b then inf else ninf
  | finite a, inf => if a = 0 then nan else if 0 < a then inf else ninf
  | ninf, finite b => if b = 0 then nan else if 0 < b then ninf else inf
  | finite a, ninf => if a = 0 then nan else if 0 < a then ninf else inf
  | finite a, finite b => finite (a * b)

/-- JavaScript division (IEEE rules; a nonzero finite number divided by
zero is a signed infinity, zero over zero and infinity over infinity are
NaN, a finite number over an infinity is zero). -/
def div : JSNum → JSNum → JSNum
  | nan, _ => nan
  | _, nan => nan
  | inf, inf => nan
  | inf, ninf => nan
  | ninf, inf => nan
  | ninf, ninf => nan
  | inf, finite b => if 0 ≤ b then inf else ninf
  | ninf, finite b => if 0 ≤ b then ninf else inf
  | finite _, inf => finite 0
  | finite _, ninf => finite 0
  | finite a, finite b =>
      if b = 0 then (if a = 0 then nan else if 0 < a then inf else ninf)
      else finite (a / b)

/-- `Math.min` on two arguments (NaN-propagating). -/
def min2 : JSNum → JSNum → JSNum
  | nan, _ => nan
  | _, nan => nan
  | inf, b => b
  | a, inf => a
  | ninf, _ => ninf
  | _, ninf => ninf
  | finite a, finite b => finite (min a b)

/-- `Math.max` on two arguments (NaN-propagating). -/
def max2 : JSNum → JSNum → JSNum
  | nan, _ => nan
  | _, nan => nan
  | ninf, b => b
  | a, ninf => a
  | inf, _ => inf
  | _, inf => inf
  | finite a, finite b => finite (max a b)

end JSNum

/-- One car sample, as consumed by `TrackView`.  Fields the view reads:
`name`, possibly-undefined coordinates `x`/`y`, heading `angle`, `speed`,
possibly-undefined race `position`, flags, and a color string.  Channels
not read by any modelled operation (throttle, brake, rpm, gear, lidar)
are omitted. -/
structure Car where
  name : String
  x : Option ℚ
  y : Option ℚ
  angle : ℚ
  speed : ℚ
  position : Option ℤ
  on_pit : Bool
  drs_active : Bool
  color : String
deriving DecidableEq, Repr

/-- A possibly-undefined JavaScript value read as a number: `undefined`
becomes NaN. -/
def jsOfOpt : Option ℚ → JSNum
  | some q => JSNum.finite q
  | none => JSNum.nan

/-- `Math.min(...xs)` over a spread array of (finite) numbers: positive
infinity on the empty array. -/
def jsMinList : List ℚ → JSNum
  | [] => JSNum.inf
  | a :: l => JSNum.finite (l.foldl min a)

/-- `Math.max(...xs)` over a spread array of (finite) numbers: negative
infinity on the empty array. -/
def jsMaxList : List ℚ → JSNum
  | [] => JSNum.ninf
  | a :: l => JSNum.finite (l.foldl max a)

/-- Rational value of the fold that `jsMinList`/`jsMaxList` perform on a
nonempty list (junk value 0 on the empty list). -/
def qFold (f : ℚ → ℚ → ℚ) : List ℚ → ℚ
  | [] => 0
  | a :: l => l.foldl f a

/-- `minX` of the render bounding box. -/
def trackMinX (pts : List (ℚ × ℚ)) : JSNum := jsMinList (pts.map Prod.fst)

/-- `maxX` of the render bounding box. -/
def trackMaxX (pts : List (ℚ × ℚ)) : JSNum := jsMaxList (pts.map Prod.fst)

/-- `minY` of the render bounding box. -/
def trackMinY (pts : List (ℚ × ℚ)) : JSNum := jsMinList (pts.map Prod.snd)

/-- `maxY` of the render bounding box. -/
def trackMaxY (pts : List (ℚ × ℚ)) : JSNum := jsMaxList (pts.map Prod.snd)

/-- Rational `minX` of a nonempty track. -/
def qMinX (pts : List (ℚ × ℚ)) : ℚ := qFold min (pts.map Prod.fst)

/-- Rational `maxX` of a nonempty track. -/
def qMaxX (pts : List (ℚ × ℚ)) : ℚ := qFold max (pts.map Prod.fst)

/-- Rational `minY` of a nonempty track. -/
def qMinY (pts : List (ℚ × ℚ)) : ℚ := qFold min (pts.map Prod.snd)

/-- Rational `maxY` of a nonempty track. -/
def qMaxY (pts : List (ℚ × ℚ)) : ℚ := qFold max (pts.map Prod.snd)

/-- The fixed padding margin of the main render (`const padding = 60`). -/
def padding : ℚ := 60

/-- `baseScale`: the smaller of the two padded fit quotients
`(width - 2*padding) / (maxX - minX)` and
`(height - 2*padding) / (maxY - minY)`, computed with JavaScript
division (so a zero-extent bounding box divides by zero). -/
def jsBaseScale (width height : ℚ) (pts : List (ℚ × ℚ)) : JSNum :=
  JSNum.min2
    (JSNum.div (JSNum.finite (width - 2 * padding))
      (JSNum.sub (trackMaxX pts) (trackMinX pts)))
    (JSNum.div (JSNum.finite (height - 2 * padding))
      (JSNum.sub (trackMaxY pts) (trackMinY pts)))

/-- `scale = baseScale * zoom`. -/
def jsScale (width height zoom : ℚ) (pts : List (ℚ × ℚ)) : JSNum :=
  JSNum.mul (jsBaseScale width height pts) (JSNum.finite zoom)

/-- The followed car, if a follow target is set, the car list is nonempty
and a car of that name exists (`if (followCar && interpolatedCars.length
> 0) { const car = interpolatedCars.find(...) ... }`). -/
def carForFollow (followCar : Option String) (cars : List Car) : Option Car :=
  match followCar with
  | none => none
  | some n => if cars = [] then none else cars.find? (fun c => c.name = n)

/-- `centerX` of the render transform: bounding-box centering, overridden
by follow-car centering when a followed car is found, then shifted by the
pan offset.  (`scale` is written out as `jsScale` where the source binds
it once to a local constant.) -/
def jsCenterX (width height zoom : ℚ) (pts : List (ℚ × ℚ))
    (followCar : Option String) (cars : List Car) (panx : ℚ) : JSNum :=
  JSNum.add
    (match carForFollow followCar cars with
     | some car =>
         JSNum.sub (JSNum.div (JSNum.finite width) (JSNum.finite 2))
           (JSNum.mul (jsOfOpt car.x) (jsScale width height zoom pts))
     | none =>
         JSNum.sub
           (JSNum.div
             (JSNum.sub (JSNum.finite width)
               (JSNum.mul (JSNum.sub (trackMaxX pts) (trackMinX pts))
                 (jsScale width height zoom pts)))
             (JSNum.finite 2))
           (JSNum.mul (trackMinX pts) (jsScale width height zoom pts)))
    (JSNum.finite panx)

/-- `centerY` of the render transform, analogous to `jsCenterX`. -/
def jsCenterY (width height zoom : ℚ) (pts : List (ℚ × ℚ))
    (followCar : Option String) (cars : List Car) (pany : ℚ) : JSNum :=
  JSNum.add
    (match carForFollow followCar cars with
     | some car =>
         JSNum.sub (JSNum.div (JSNum.finite height) (JSNum.finite 2))
           (JSNum.mul (jsOfOpt car.y) (jsScale width height zoom pts))
     | none =>
         JSNum.sub
           (JSNum.div
             (JSNum.sub (JSNum.finite height)
               (JSNum.mul (JSNum.sub (trackMaxY pts) (trackMinY pts))
                 (jsScale width height zoom pts)))
             (JSNum.finite 2))
           (JSNum.mul (trackMinY pts) (jsScale width height zoom pts)))
    (JSNum.finite pany)

/-- The x-component of `transform(x, y) = [x * scale + centerX, y * scale
+ centerY]`. -/
def jsTransformX (width height zoom : ℚ) (pts : List (ℚ × ℚ))
    (followCar : Option String) (cars : List Car) (panx x : ℚ) : JSNum :=
  JSNum.add (JSNum.mul (JSNum.finite x) (jsScale width height zoom pts))
    (jsCenterX width height zoom pts followCar cars panx)

/-- The y-component of the render transform. -/
def jsTransformY (width height zoom : ℚ) (pts : List (ℚ × ℚ))
    (followCar : Option String) (cars : List Car) (pany y : ℚ) : JSNum :=
  JSNum.add (JSNum.mul (JSNum.finite y) (jsScale width height zoom pts))
    (jsCenterY width height zoom pts followCar cars pany)

/-- The minimap scale: `min(200 / Math.max(maxX - minX, 1), 150 /
Math.max(maxY - minY, 1))`. -/
def minimapScale (pts : List (ℚ × ℚ)) : JSNum :=
  JSNum.min2
    (JSNum.div (JSNum.finite 200)
      (JSNum.max2 (JSNum.sub (trackMaxX pts) (trackMinX pts))
        (JSNum.finite 1)))
    (JSNum.div (JSNum.finite 150)
      (JSNum.max2 (JSNum.sub (trackMaxY pts) (trackMinY pts))
        (JSNum.finite 1)))

/-- The zoom button handler: `setZoom(prev => Math.max(0.5, Math.min(3.0,
prev + delta)))`. -/
def handleZoom (prev delta : ℚ) : ℚ :=
  max (1/2) (min 3 (prev + delta))

/-- One entry of a car trail: a projected screen point plus the
timestamp recorded at push time. -/
structure TrailEntry where
  x : JSNum
  y : JSNum
  time : ℤ
deriving DecidableEq, Repr

/-- The body of `drawCarTrail` acting on one car trail: push the new
point with the current timestamp, shift once if the length now exceeds
20, then shift from the front while the front entry is older than
2000 ms.  (The source reads `Date.now()` twice in one call; both reads
are modelled by the single timestamp `t`.) -/
def updateTrail (t : ℤ) (px py : JSNum) (trail : List TrailEntry) :
    List TrailEntry :=
  let tr1 := trail ++ [⟨px, py, t⟩]
  let tr2 := if 20 < tr1.length then tr1.tail else tr1
  tr2.dropWhile (fun e => decide (2000 < t - e.time))

/-- A sequence of `updateTrail` calls applied to an initially empty
trail, each call carrying its timestamp and projected point. -/
def runTrailCalls (calls : List (ℤ × JSNum × JSNum)) : List TrailEntry :=
  calls.foldl (fun tr c => updateTrail c.1 c.2.1 c.2.2 tr) []

/-- The invariant carried between `updateTrail` calls: at most 20
entries, ordered oldest to newest, no entry from the future of the last
call at time `t`. -/
def trailInv (t : ℤ) (tr : List TrailEntry) : Prop :=
  tr.length ≤ 20 ∧ tr.Pairwise (fun a b => a.time ≤ b.time) ∧
    ∀ e ∈ tr, e.time ≤ t

/-- Lookup in an association list keyed by strings (first match), the
model of reading a JavaScript `Map` keyed by car name. -/
def assocGet {α : Type} (s : List (String × α)) (k : String) : Option α :=
  (s.find? (fun e => e.1 = k)).map Prod.snd

/-- `Map.set` / object-spread update: rebind `k` in place if present,
else append the new binding. -/
def assocSet {α : Type} (k : String) (v : α) :
    List (String × α) → List (String × α)
  | [] => [(k, v)]
  | e :: t => if e.1 = k then (k, v) :: t else e :: assocSet k v t

/-- The per-view trail store, keyed by car name
(`carTrailsRef.current`). -/
abbrev TrailStore : Type := List (String × List TrailEntry)

/-- The store effect of `drawCarTrail`: create an empty trail for the
car if absent, then push/evict on that car's trail.  Canvas painting has
no store effect and is not modelled. -/
def drawCarTrail (t : ℤ) (car : Car)
    (transform : JSNum → JSNum → JSNum × JSNum) (store : TrailStore) :
    TrailStore :=
  let trail := (assocGet store car.name).getD []
  let p := transform (jsOfOpt car.x) (jsOfOpt car.y)
  assocSet car.name (updateTrail t p.1 p.2 trail) store

/-- The store effect of `drawCar`: the trail is touched only behind
`if (car.speed > 50)`. -/
def drawCar (t : ℤ) (car : Car)
    (transform : JSNum → JSNum → JSNum × JSNum) (store : TrailStore) :
    TrailStore :=
  if 50 < car.speed then drawCarTrail t car transform store else store

/-- The sort key of the render draw order: `(car.position || 0)`
(`undefined` falls back to 0; a stored 0 is also falsy and stays 0). -/
def carKey (c : Car) : ℤ := c.position.getD 0

/-- Insert a car into an already sorted draw list, after every car whose
key is at most its own (the stable insertion realizing the comparator
`(a.position || 0) - (b.position || 0)` of a stable `Array.sort`). -/
def insertCarByKey (c : Car) : List Car → List Car
  | [] => [c]
  | x :: xs =>
      if carKey c ≤ carKey x then c :: x :: xs else x :: insertCarByKey c xs

/-- Stable insertion sort by `carKey`, the model of the ECMAScript
stable `Array.sort` with the numeric position comparator. -/
def sortCarsByKey (l : List Car) : List Car :=
  l.foldr insertCarByKey []

/-- `sortedCars` of the render loop: keep the cars with defined
coordinates, then sort them by `(position || 0)` ascending. -/
def rankCarsForRender (cars : List Car) : List Car :=
  sortCarsByKey (cars.filter (fun c => c.x.isSome && c.y.isSome))

/-- An ML-insight report, treated as an opaque-payload document. -/
structure DriverInsightReport where
  payload : String
deriving DecidableEq, Repr

/-- The response observed by `handleGenerateDriverInsight`: a 2xx JSON
body carrying `success` and optionally `insights`, a non-2xx status with
a detail string, or a network error (rejected fetch). -/
inductive InsightResponse where
  | ok (success : Bool) (insights : Option DriverInsightReport) (error : String)
  | httpError (detail : String)
  | networkError
deriving DecidableEq, Repr

/-- The effect of `handleGenerateDriverInsight` on the `mlInsights`
cache: the cache is written only on `response.ok` with `data.success`
true and `data.insights` present; every other path only logs. -/
def handleGenerateDriverInsight (driverName : String)
    (resp : InsightResponse) (cache : List (String × DriverInsightReport)) :
    List (String × DriverInsightReport) :=
  match resp with
  | .ok success insights _ =>
      if success then
        match insights with
        | some r => assocSet driverName r cache
        | none => cache
      else cache
  | .httpError _ => cache
  | .networkError => cache

/-- The failure cases named by the spec: a body with `success: false`, a
non-2xx status, or a network error. -/
def insightFetchFailed : InsightResponse → Bool
  | .ok success _ _ => !success
  | .httpError _ => true
  | .networkError => true

/-- JavaScript truncation toward zero, the rounding used by the `%`
operator. -/
noncomputable def jsTrunc (x : ℝ) : ℤ :=
  if 0 ≤ x then ⌊x⌋ else ⌈x⌉

/-- The JavaScript remainder `a % b`: truncated division, so the result
carries the sign of the dividend. -/
noncomputable def jsRem (a b : ℝ) : ℝ :=
  a - b * (jsTrunc (a / b) : ℝ)

/-- The heading-difference normalization of `Car3D`:
`angleDiff = target - current;
normalizedDiff = ((angleDiff + Math.PI) % (2 * Math.PI)) - Math.PI`. -/
noncomputable def angleToHeadingDelta (current target : ℝ) : ℝ :=
  jsRem ((target - current) + Real.pi) (2 * Real.pi) - Real.pi

/-- A sample whose `position` is undefined (used as concrete data). -/
def carAlpha : Car :=
  ⟨"Alpha", some 0, some 0, 0, 0, none, false, false, "#ffffff"⟩

/-- A sample holding race position 1 (used as concrete data). -/
def carBeta : Car :=
  ⟨"Beta", some 1, some 1, 0, 0, some 1, false, false, "#0000ff"⟩

/-- A concrete slow sample (speed 30) with a nonempty stored trail
elsewhere (used as concrete data). -/
def carSlow : Car :=
  ⟨"Slow", some 2, some 3, 0, 30, some 4, false, false, "#ff0000"⟩

/-- A concrete sequence of trail calls at nondecreasing timestamps
(used as concrete data). -/
def trailCallsSample : List (ℤ × JSNum × JSNum) :=
  [(0, JSNum.finite 0, JSNum.finite 0),
   (1500, JSNum.finite 1, JSNum.finite 2),
   (3000, JSNum.finite 3, JSNum.finite 4)]

/-- The square track of the spec scenario (used as concrete data). -/
def squareTrack : List (ℚ × ℚ) := [(0, 0), (10, 0), (10, 10), (0, 10)]

end Nopium

namespace Nopium

@[simp] theorem JSNum.neg_finite (a : ℚ) :
    JSNum.neg (JSNum.finite a) = JSNum.finite (-a) := rfl

@[simp] theorem JSNum.add_finite (a b : ℚ) :
    JSNum.add (JSNum.finite a) (JSNum.finite b) = JSNum.finite (a + b) := rfl

@[simp] theorem JSNum.sub_finite (a b : ℚ) :
    JSNum.sub (JSNum.finite a) (JSNum.finite b) = JSNum.finite (a - b) := by
  simp [JSNum.sub, JSNum.add, JSNum.neg, sub_eq_add_neg]

@[simp] theorem JSNum.mul_finite (a b : ℚ) :
    JSNum.mul (JSNum.finite a) (JSNum.finite b) = JSNum.finite (a * b) := rfl

@[simp] theorem JSNum.min2_finite (a b : ℚ) :
    JSNum.min2 (JSNum.finite a) (JSNum.finite b)
      = JSNum.finite (min a b) := rfl

@[simp] theorem JSNum.max2_finite (a b : ℚ) :
    JSNum.max2 (JSNum.finite a) (JSNum.finite b)
      = JSNum.finite (max a b) := rfl

theorem JSNum.div_finite (a : ℚ) {b : ℚ} (hb : b ≠ 0) :
    JSNum.div (JSNum.finite a) (JSNum.finite b) = JSNum.finite (a / b) := by
  simp [JSNum.div, hb]

@[simp] theorem JSNum.add_nan (a : JSNum) : JSNum.add a JSNum.nan = JSNum.nan := by
  cases a <;> rfl

@[simp] theorem JSNum.nan_add (a : JSNum) : JSNum.add JSNum.nan a = JSNum.nan := by
  cases a <;> rfl

@[simp] theorem JSNum.sub_nan (a : JSNum) : JSNum.sub a JSNum.nan = JSNum.nan := by
  cases a <;> rfl

@[simp] theorem JSNum.nan_sub (a : JSNum) : JSNum.sub JSNum.nan a = JSNum.nan := by
  cases a <;> rfl

@[simp] theorem JSNum.nan_div (a : JSNum) : JSNum.div JSNum.nan a = JSNum.nan := by
  cases a <;> rfl

@[simp] theorem JSNum.div_nan (a : JSNum) : JSNum.div a JSNum.nan = JSNum.nan := by
  cases a <;> rfl

@[simp] theorem JSNum.mul_nan (a : JSNum) : JSNum.mul a JSNum.nan = JSNum.nan := by
  cases a <;> rfl

@[simp] theorem JSNum.nan_mul (a : JSNum) : JSNum.mul JSNum.nan a = JSNum.nan := by
  cases a <;> rfl

theorem JSNum.mul_inf_of_pos {a : ℚ} (ha : 0 < a) :
    JSNum.mul (JSNum.finite a) JSNum.inf = JSNum.inf := by
  simp [JSNum.mul, ha.ne', ha]

theorem JSNum.inf_mul_of_pos {a : ℚ} (ha : 0 < a) :
    JSNum.mul JSNum.inf (JSNum.finite a) = JSNum.inf := by
  simp [JSNum.mul, ha.ne', ha]

theorem trackMinX_nonempty (p : ℚ × ℚ) (l : List (ℚ × ℚ)) :
    trackMinX (p :: l) = JSNum.finite (qMinX (p :: l)) := rfl

theorem trackMaxX_nonempty (p : ℚ × ℚ) (l : List (ℚ × ℚ)) :
    trackMaxX (p :: l) = JSNum.finite (qMaxX (p :: l)) := rfl

theorem trackMinY_nonempty (p : ℚ × ℚ) (l : List (ℚ × ℚ)) :
    trackMinY (p :: l) = JSNum.finite (qMinY (p :: l)) := rfl

theorem trackMaxY_nonempty (p : ℚ × ℚ) (l : List (ℚ × ℚ)) :
    trackMaxY (p :: l) = JSNum.finite (qMaxY (p :: l)) := rfl

theorem mem_insertCarByKey {x c : Car} {l : List Car}
    (hx : x ∈ insertCarByKey c l) : x = c ∨ x ∈ l := by
  induction l with
  | nil => simpa [insertCarByKey] using hx
  | cons a t ih =>
    by_cases h : carKey c ≤ carKey a
    · simpa [insertCarByKey, h] using hx
    · rw [insertCarByKey, if_neg h] at hx
      rcases List.mem_cons.mp hx with rfl | hx2
      · exact Or.inr (List.mem_cons_self _ _)
      · rcases ih hx2 with rfl | hmem
        · exact Or.inl rfl
        · exact Or.inr (List.mem_cons_of_mem _ hmem)

theorem pairwise_insertCarByKey (c : Car) {l : List Car}
    (h : l.Pairwise (fun a b => carKey a ≤ carKey b)) :
    (insertCarByKey c l).Pairwise (fun a b => carKey a ≤ carKey b) := by
  induction l with
  | nil => simp [insertCarByKey]
  | cons a t ih =>
    obtain ⟨ha, ht⟩ := List.pairwise_cons.mp h
    by_cases hca : carKey c ≤ carKey a
    · rw [insertCarByKey, if_pos hca]
      refine List.pairwise_cons.mpr ⟨?_, h⟩
      intro b hb
      rcases List.mem_cons.mp hb with rfl | hb2
      · exact hca
      · exact le_trans hca (ha b hb2)
    · rw [insertCarByKey, if_neg hca]
      refine List.pairwise_cons.mpr ⟨?_, ih ht⟩
      intro b hb
      rcases mem_insertCarByKey hb with rfl | hb2
      · exact le_of_lt (lt_of_not_le hca)
      · exact ha b hb2

theorem pairwise_sortCarsByKey (l : List Car) :
    (sortCarsByKey l).Pairwise (fun a b => carKey a ≤ carKey b) := by
  induction l with
  | nil => simp [sortCarsByKey]
  | cons a t ih => exact pairwise_insertCarByKey a ih

theorem filter_insertCarByKey (k : ℤ) (c : Car) (l : List Car) :
    (insertCarByKey c l).filter (fun x => carKey x == k)
      = if carKey c = k then c :: l.filter (fun x => carKey x == k)
        else l.filter (fun x => carKey x == k) := by
  induction l with
  | nil =>
    by_cases hc : carKey c = k <;>
      simp [insertCarByKey, List.filter_cons, hc]
  | cons a t ih =>
    by_cases hca : carKey c ≤ carKey a
    · rw [insertCarByKey, if_pos hca]
      by_cases hc : carKey c = k <;>
        simp [List.filter_cons, hc]
    · rw [insertCarByKey, if_neg hca]
      have hlt : carKey a < carKey c := lt_of_not_le hca
      by_cases hc : carKey c = k
      · have hak : ¬ (carKey a = k) := by omega
        rw [List.filter_cons, if_neg (by simpa using hak), ih, if_pos hc,
          if_pos hc, List.filter_cons, if_neg (by simpa using hak)]
      · rw [List.filter_cons, ih, if_neg hc, if_neg hc, List.filter_cons]

theorem filter_sortCarsByKey (k : ℤ) (l : List Car) :
    (sortCarsByKey l).filter (fun x => carKey x == k)
      = l.filter (fun x => carKey x == k) := by
  induction l with
  | nil => rfl
  | cons a t ih =>
    show (insertCarByKey a (sortCarsByKey t)).filter _ = _
    rw [filter_insertCarByKey]
    by_cases ha : carKey a = k <;> simp [List.filter_cons, ha, ih]

theorem age_bound_dropWhile (t : ℤ) (l : List TrailEntry)
    (h : l.Pairwise (fun a b => a.time ≤ b.time)) :
    ∀ e ∈ l.dropWhile (fun e => decide (2000 < t - e.time)),
      t - e.time ≤ 2000 := by
  induction l with
  | nil => simp
  | cons a l ih =>
    by_cases ha : 2000 < t - a.time
    · rw [List.dropWhile_cons, if_pos (by simpa using ha)]
      exact ih (List.pairwise_cons.mp h).2
    · rw [List.dropWhile_cons, if_neg (by simpa using ha)]
      intro e he
      rcases List.mem_cons.mp he with rfl | he2
      · omega
      · have hae := (List.pairwise_cons.mp h).1 e he2
        omega

theorem updateTrail_inv {t' : ℤ} {tr : List TrailEntry}
    (t : ℤ) (px py : JSNum) (h : trailInv t' tr) (hle : t' ≤ t) :
    trailInv t (updateTrail t px py tr) ∧
      ∀ e ∈ updateTrail t px py tr, t - e.time ≤ 2000 := by
  obtain ⟨hlen, hpw, hub⟩ := h
  have hub1 : ∀ e ∈ tr ++ [(⟨px, py, t⟩ : TrailEntry)], e.time ≤ t := by
    intro e he
    rcases List.mem_append.mp he with he1 | he2
    · exact le_trans (hub e he1) hle
    · simp at he2; simp [he2]
  have hpw1 : (tr ++ [(⟨px, py, t⟩ : TrailEntry)]).Pairwise
      (fun a b => a.time ≤ b.time) := by
    refine List.pairwise_append.mpr ⟨hpw, by simp, ?_⟩
    intro a ha b hb
    simp at hb
    subst hb
    exact le_trans (hub a ha) hle
  set tr1 := tr ++ [(⟨px, py, t⟩ : TrailEntry)] with htr1
  have hlen1 : tr1.length ≤ 21 := by
    simp only [htr1, List.length_append, List.length_cons, List.length_nil]
    omega
  have h2sub :
      List.Sublist (if 20 < tr1.length then tr1.tail else tr1) tr1 := by
    by_cases hc : 20 < tr1.length
    · rw [if_pos hc]; exact List.tail_sublist tr1
    · rw [if_neg hc]
  set tr2 := if 20 < tr1.length then tr1.tail else tr1 with htr2
  have hlen2 : tr2.length ≤ 20 := by
    by_cases hc : 20 < tr1.length
    · rw [htr2, if_pos hc]
      simp only [List.length_tail]
      omega
    · rw [htr2, if_neg hc]
      omega
  have hpw2 : tr2.Pairwise (fun a b => a.time ≤ b.time) :=
    hpw1.sublist h2sub
  have hub2 : ∀ e ∈ tr2, e.time ≤ t := fun e he =>
    hub1 e (h2sub.subset he)
  have hdsub : List.Sublist
      (tr2.dropWhile (fun e => decide (2000 < t - e.time))) tr2 :=
    List.dropWhile_sublist _
  have hres : updateTrail t px py tr
      = tr2.dropWhile (fun e => decide (2000 < t - e.time)) := rfl
  rw [hres]
  refine ⟨⟨le_trans hdsub.length_le hlen2, hpw2.sublist hdsub,
    fun e he => hub2 e (hdsub.subset he)⟩, ?_⟩
  exact age_bound_dropWhile t tr2 hpw2

theorem runTrailCalls_aux (calls : List (ℤ × JSNum × JSNum)) :
    ∀ (tr : List TrailEntry) (t₀ : ℤ), trailInv t₀ tr →
      (∀ e ∈ tr, t₀ - e.time ≤ 2000) →
      List.Chain' (fun a b => a ≤ b) (t₀ :: calls.map Prod.fst) →
      trailInv ((calls.map Prod.fst).getLastD t₀)
          (calls.foldl (fun tr c => updateTrail c.1 c.2.1 c.2.2 tr) tr) ∧
        ∀ e ∈ calls.foldl (fun tr c => updateTrail c.1 c.2.1 c.2.2 tr) tr,
          ((calls.map Prod.fst).getLastD t₀) - e.time ≤ 2000 := by
  induction calls with
  | nil =>
    intro tr t₀ h hage _
    exact ⟨h, hage⟩
  | cons c cs ih =>
    intro tr t₀ h hage hchain
    rw [List.map_cons] at hchain
    have hc : t₀ ≤ c.1 := (List.chain'_cons.mp hchain).1
    have hstep := updateTrail_inv c.1 c.2.1 c.2.2 h hc
    have hrec := ih (updateTrail c.1 c.2.1 c.2.2 tr) c.1 hstep.1 hstep.2
      (List.chain'_cons.mp hchain).2
    rw [List.map_cons, List.getLastD_cons, List.foldl_cons]
    exact hrec

theorem assocGet_assocSet_ne {α : Type} (k k' : String) (v : α)
    (s : List (String × α)) (h : k' ≠ k) :
    assocGet (assocSet k v s) k' = assocGet s k' := by
  induction s with
  | nil => simp [assocSet, assocGet, List.find?, h, Ne.symm h]
  | cons e tl ih =>
    by_cases he : e.1 = k
    · rw [assocSet, if_pos he]
      rw [assocGet, assocGet, List.find?, List.find?]
      have h1 : ((k, v).1 = k') = False := by simp [Ne.symm h]
      have h2 : (e.1 = k') = False := by simp [he, Ne.symm h]
      simp [h1, h2]
    · rw [assocSet, if_neg he]
      rw [assocGet, assocGet, List.find?, List.find?]
      by_cases he2 : e.1 = k'
      · simp [he2]
      · simpa [he2, assocGet] using ih

/-- Claim C7: for every current zoom value and every adjustment delta,
the zoom produced by `handleZoom` lies in `[0.5, 3.0]`; a value that
would fall outside the range is clamped to the nearest bound, and an
in-range value is kept as is. -/
theorem handleZoom_clamped (prev delta : ℚ) :
    (1/2 ≤ handleZoom prev delta ∧ handleZoom prev delta ≤ 3) ∧
    (prev + delta < 1/2 → handleZoom prev delta = 1/2) ∧
    (3 < prev + delta → handleZoom prev delta = 3) ∧
    (1/2 ≤ prev + delta → prev + delta ≤ 3 →
      handleZoom prev delta = prev + delta) := by
  unfold handleZoom
  refine ⟨⟨le_max_left _ _, max_le (by norm_num) (min_le_left _ _)⟩,
    ?_, ?_, ?_⟩
  · intro h
    rw [min_eq_right (by linarith), max_eq_left (by linarith)]
  · intro h
    rw [min_eq_left (by linarith)]
    exact max_eq_right (by norm_num)
  · intro h1 h2
    rw [min_eq_right h2, max_eq_right h1]

/-- Witness for `handleZoom_clamped` at concrete zoom values 2.9 + 0.5
(clamped up to 3) and 0.6 − 2 (clamped down to 0.5). -/
theorem handleZoom_clamped_witness :
    handleZoom (29/10) (1/2) = 3 ∧ handleZoom (3/5) (-2) = 1/2 :=
  ⟨(handleZoom_clamped (29/10) (1/2)).2.2.1 (by norm_num),
   (handleZoom_clamped (3/5) (-2)).2.1 (by norm_num)⟩

/-- Claim C8: when the insight fetch for a driver fails (body with
`success: false`, non-2xx status, or network error), the ML-insight
cache is left exactly as it was: the failing driver stays unset if it
was unset, and no other driver's cached report changes. -/
theorem insightFetch_failure_cache_unchanged (driverName : String)
    (resp : InsightResponse) (cache : List (String × DriverInsightReport))
    (hfail : insightFetchFailed resp = true) :
    handleGenerateDriverInsight driverName resp cache = cache ∧
    (assocGet cache driverName = none →
      assocGet (handleGenerateDriverInsight driverName resp cache)
        driverName = none) ∧
    ∀ d : String,
      assocGet (handleGenerateDriverInsight driverName resp cache) d
        = assocGet cache d := by
  have h : handleGenerateDriverInsight driverName resp cache = cache := by
    cases resp with
    | ok success insights e =>
      cases success with
      | false => rfl
      | true => simp [insightFetchFailed] at hfail
    | httpError d => rfl
    | networkError => rfl
  exact ⟨h, fun hn => by rw [h]; exact hn, fun d => by rw [h]⟩

/-- Witness for `insightFetch_failure_cache_unchanged`: the spec
scenario, a `success: false` body for driver Hamilton against a cache
holding a report for another driver. -/
theorem insightFetch_failure_cache_unchanged_witness :
    handleGenerateDriverInsight "Hamilton"
        (InsightResponse.ok false none "model unavailable")
        [("Verstappen", ⟨"report"⟩)]
      = [("Verstappen", ⟨"report"⟩)] ∧
    assocGet
        (handleGenerateDriverInsight "Hamilton"
          (InsightResponse.ok false none "model unavailable")
          [("Verstappen", ⟨"report"⟩)]) "Hamilton" = none := by
  have h := insightFetch_failure_cache_unchanged "Hamilton"
    (InsightResponse.ok false none "model unavailable")
    [("Verstappen", ⟨"report"⟩)] (by decide)
  exact ⟨h.1, h.2.1 (by decide)⟩

/-- Claim C9: drawing a car touches the trail store only behind the
strict speed test `car.speed > 50` — a car at speed at most 50 leaves
the whole store untouched — and drawing one car never changes the trail
stored under any other car's name. -/
theorem drawCar_trail_effect (t : ℤ) (car : Car)
    (transform : JSNum → JSNum → JSNum × JSNum) (store : TrailStore) :
    (car.speed ≤ 50 → drawCar t car transform store = store) ∧
    ∀ other : String, other ≠ car.name →
      assocGet (drawCar t car transform store) other
        = assocGet store other := by
  constructor
  · intro h
    rw [drawCar, if_neg (not_lt.mpr h)]
  · intro other hne
    by_cases hs : 50 < car.speed
    · rw [drawCar, if_pos hs, drawCarTrail]
      exact assocGet_assocSet_ne car.name other _ store hne
    · rw [drawCar, if_neg hs]

/-- Witness for `drawCar_trail_effect`: a concrete car at speed 30 and
a store holding another car's trail is left unchanged. -/
theorem drawCar_trail_effect_witness :
    drawCar 0 carSlow (fun x y => (x, y)) [("Beta", [])] = [("Beta", [])] ∧
    assocGet (drawCar 0 carSlow (fun x y => (x, y)) [("Beta", [])]) "Beta"
      = assocGet ([("Beta", [])] : TrailStore) "Beta" := by
  have h := drawCar_trail_effect 0 carSlow (fun x y => (x, y)) [("Beta", [])]
  exact ⟨h.1 (by norm_num [carSlow]), h.2 "Beta" (by decide)⟩

/-- Claim C10: the minimap transform guards degenerate geometry: on any
nonempty track its scale is the finite rational
`min(200 / max(width, 1), 150 / max(height, 1))`, which is positive, so
no division by zero occurs even for a zero-size bounding box. -/
theorem minimapScale_finite_pos (pts : List (ℚ × ℚ)) (hne : pts ≠ []) :
    minimapScale pts
      = JSNum.finite (min (200 / max (qMaxX pts - qMinX pts) 1)
          (150 / max (qMaxY pts - qMinY pts) 1)) ∧
    0 < min (200 / max (qMaxX pts - qMinX pts) 1)
        (150 / max (qMaxY pts - qMinY pts) 1) := by
  obtain ⟨p, l, rfl⟩ := List.exists_cons_of_ne_nil hne
  have hx : (0 : ℚ) < max (qMaxX (p :: l) - qMinX (p :: l)) 1 :=
    lt_of_lt_of_le one_pos (le_max_right _ _)
  have hy : (0 : ℚ) < max (qMaxY (p :: l) - qMinY (p :: l)) 1 :=
    lt_of_lt_of_le one_pos (le_max_right _ _)
  constructor
  · rw [minimapScale, trackMaxX_nonempty, trackMinX_nonempty,
      trackMaxY_nonempty, trackMinY_nonempty, JSNum.sub_finite,
      JSNum.sub_finite, JSNum.max2_finite, JSNum.max2_finite,
      JSNum.div_finite _ hx.ne', JSNum.div_finite _ hy.ne',
      JSNum.min2_finite]
  · exact lt_min (div_pos (by norm_num) hx) (div_pos (by norm_num) hy)

/-- Witness for `minimapScale_finite_pos` at a concrete two-point track
with bounding box 10 by 5: the scale is 20. -/
theorem minimapScale_finite_pos_witness :
    minimapScale [((0 : ℚ), (0 : ℚ)), ((10 : ℚ), (5 : ℚ))]
      = JSNum.finite 20 ∧ (0 : ℚ) < 20 := by
  have h := minimapScale_finite_pos [(0, 0), (10, 5)] (by decide)
  constructor
  · rw [h.1]
    norm_num [qMaxX, qMinX, qMaxY, qMinY, qFold]
  · norm_num

/-- Counterexample to claim C3 as stated: the sort comparator is
`(a.position || 0) - (b.position || 0)`, so a missing rank is coerced to
the sentinel 0 and sorts BEFORE every positive present rank, not after
all present ranks via a large sentinel.  Here the rank-less `carAlpha`
lands before rank-1 `carBeta` for either input order. -/
theorem rankCars_missing_rank_first :
    carAlpha.position = none ∧ carBeta.position = some 1 ∧
    rankCarsForRender [carAlpha, carBeta] = [carAlpha, carBeta] ∧
    rankCarsForRender [carBeta, carAlpha] = [carAlpha, carBeta] ∧
    rankCarsForRender [carAlpha, carBeta] ≠ [carBeta, carAlpha] := by
  refine ⟨rfl, rfl, by decide, by decide, by decide⟩

/-- Claim C3 as amended: `rankCarsForRender` (the coordinate filter plus
sort of the render loop) returns the cars sorted by ascending key
`position || 0` — a missing rank is coerced to the sentinel 0, sorting
before all positive present ranks rather than after them — and the sort
is stable: for each key value the cars carrying it keep their relative
input order. -/
theorem rankCars_sorted_stable (cars : List Car) :
    (rankCarsForRender cars).Pairwise (fun a b => carKey a ≤ carKey b) ∧
    ∀ k : ℤ, (rankCarsForRender cars).filter (fun c => carKey c == k)
      = (cars.filter (fun c => c.x.isSome && c.y.isSome)).filter
          (fun c => carKey c == k) :=
  ⟨pairwise_sortCarsByKey _, fun k => filter_sortCarsByKey k _⟩

/-- Claim C4: after every call of a nondecreasing-timestamp call
sequence, the trail produced by the `drawCarTrail` eviction logic holds
at most 20 entries, is ordered oldest to newest, and holds no entry
older than 2000 ms relative to the last call's timestamp. -/
theorem updateTrail_bounded_inv (calls : List (ℤ × JSNum × JSNum))
    (hmono : List.Chain' (fun a b => a ≤ b) (calls.map Prod.fst))
    (hne : calls ≠ []) :
    (runTrailCalls calls).length ≤ 20 ∧
    (runTrailCalls calls).Pairwise (fun a b => a.time ≤ b.time) ∧
    ∀ e ∈ runTrailCalls calls,
      (calls.map Prod.fst).getLastD 0 - e.time ≤ 2000 := by
  obtain ⟨c, cs, rfl⟩ := List.exists_cons_of_ne_nil hne
  have hchain :
      List.Chain' (fun a b => a ≤ b) (c.1 :: (c :: cs).map Prod.fst) := by
    rw [List.map_cons]
    exact List.chain'_cons.mpr ⟨le_refl _, by rwa [List.map_cons] at hmono⟩
  have h := runTrailCalls_aux (c :: cs) [] c.1
    (by simp [trailInv]) (by simp) hchain
  rw [List.map_cons, List.getLastD_cons] at h
  rw [List.map_cons, List.getLastD_cons]
  obtain ⟨⟨h1, h2, _⟩, h4⟩ := h
  exact ⟨h1, h2, h4⟩

/-- Witness for `updateTrail_bounded_inv` on the concrete call sequence
at timestamps 0, 1500, 3000. -/
theorem updateTrail_bounded_inv_witness :
    (runTrailCalls trailCallsSample).length ≤ 20 ∧
    (runTrailCalls trailCallsSample).Pairwise
      (fun a b => a.time ≤ b.time) ∧
    ∀ e ∈ runTrailCalls trailCallsSample,
      (trailCallsSample.map Prod.fst).getLastD 0 - e.time ≤ 2000 :=
  updateTrail_bounded_inv trailCallsSample
    (by simp [trailCallsSample, List.chain'_cons]) (by decide)

/-- Counterexample to claim C2 as stated: for the degenerate one-point
track the base scale computation divides `width - 2*padding` by the zero
bounding-box extent, producing infinity rather than the claimed fallback
scale 1, and the resulting mapping is NaN rather than finite. -/
theorem baseScale_degenerate_not_one :
    jsBaseScale 1200 800 [((5 : ℚ), (5 : ℚ))] = JSNum.inf ∧
    jsBaseScale 1200 800 [((5 : ℚ), (5 : ℚ))] ≠ JSNum.finite 1 ∧
    jsTransformX 1200 800 1 [((5 : ℚ), (5 : ℚ))] none [] 0 5 = JSNum.nan ∧
    jsTransformY 1200 800 1 [((5 : ℚ), (5 : ℚ))] none [] 0 5 = JSNum.nan := by
  have hbs : jsBaseScale 1200 800 [((5 : ℚ), (5 : ℚ))] = JSNum.inf := by
    norm_num [jsBaseScale, trackMaxX, trackMinX, trackMaxY, trackMinY,
      jsMaxList, jsMinList, padding, JSNum.sub, JSNum.add, JSNum.neg,
      JSNum.div, JSNum.min2, List.map, List.foldl]
  have htx : jsTransformX 1200 800 1 [((5 : ℚ), (5 : ℚ))] none [] 0 5
      = JSNum.nan := by
    norm_num [jsTransformX, jsCenterX, carForFollow, jsScale,
      jsBaseScale, trackMaxX, trackMinX, trackMaxY, trackMinY,
      jsMaxList, jsMinList, padding, JSNum.sub, JSNum.add, JSNum.neg,
      JSNum.div, JSNum.min2, JSNum.mul, List.map, List.foldl]
  have hty : jsTransformY 1200 800 1 [((5 : ℚ), (5 : ℚ))] none [] 0 5
      = JSNum.nan := by
    norm_num [jsTransformY, jsCenterY, carForFollow, jsScale,
      jsBaseScale, trackMaxX, trackMinX, trackMaxY, trackMinY,
      jsMaxList, jsMinList, padding, JSNum.sub, JSNum.add, JSNum.neg,
      JSNum.div, JSNum.min2, JSNum.mul, List.map, List.foldl]
  exact ⟨hbs, by simp [hbs], htx, hty⟩

/-- Claim C2 as amended: `computeTransform` has no zero-size guard — on
every nonempty track whose bounding box has zero width and height (and a
surface wider and taller than the 120-pixel padding, positive zoom), the
base scale divides by zero and is positive infinity, not 1, and the
track-plane-to-surface mapping is NaN (non-finite) everywhere. -/
theorem baseScale_degenerate_inf (W H zoom : ℚ) (pts : List (ℚ × ℚ))
    (hne : pts ≠ []) (hw : qMaxX pts - qMinX pts = 0)
    (hh : qMaxY pts - qMinY pts = 0) (hW : 2 * padding < W)
    (hH : 2 * padding < H) (hz : 0 < zoom) :
    jsBaseScale W H pts = JSNum.inf ∧
    ∀ x : ℚ, jsTransformX W H zoom pts none [] 0 x = JSNum.nan := by
  obtain ⟨p, l, rfl⟩ := List.exists_cons_of_ne_nil hne
  have hWp : (0 : ℚ) < W - 2 * padding := by linarith
  have hHp : (0 : ℚ) < H - 2 * padding := by linarith
  have hdx : JSNum.div (JSNum.finite (W - 2 * padding)) (JSNum.finite 0)
      = JSNum.inf := by
    simp [JSNum.div, hWp.ne', hWp]
  have hdy : JSNum.div (JSNum.finite (H - 2 * padding)) (JSNum.finite 0)
      = JSNum.inf := by
    simp [JSNum.div, hHp.ne', hHp]
  have hbs : jsBaseScale W H (p :: l) = JSNum.inf := by
    rw [jsBaseScale, trackMaxX_nonempty, trackMinX_nonempty,
      trackMaxY_nonempty, trackMinY_nonempty, JSNum.sub_finite,
      JSNum.sub_finite, hw, hh, hdx, hdy]
    rfl
  refine ⟨hbs, fun x => ?_⟩
  have hsc : jsScale W H zoom (p :: l) = JSNum.inf := by
    rw [jsScale, hbs]
    exact JSNum.inf_mul_of_pos hz
  have hcx : jsCenterX W H zoom (p :: l) none [] 0 = JSNum.nan := by
    rw [jsCenterX]
    simp only [carForFollow]
    rw [trackMaxX_nonempty, trackMinX_nonempty, JSNum.sub_finite, hw, hsc]
    simp [JSNum.mul]
  rw [jsTransformX, hcx, JSNum.add_nan]

/-- Witness for `baseScale_degenerate_inf` on a concrete degenerate
two-point track. -/
theorem baseScale_degenerate_inf_witness :
    jsBaseScale 1200 800 [((3 : ℚ), (4 : ℚ)), ((3 : ℚ), (4 : ℚ))]
      = JSNum.inf ∧
    jsTransformX 1200 800 1 [((3 : ℚ), (4 : ℚ)), ((3 : ℚ), (4 : ℚ))]
      none [] 0 7 = JSNum.nan := by
  have h := baseScale_degenerate_inf 1200 800 1
    [((3 : ℚ), (4 : ℚ)), ((3 : ℚ), (4 : ℚ))] (by simp)
    (by norm_num [qMaxX, qMinX, qFold, List.map, List.foldl])
    (by norm_num [qMaxY, qMinY, qFold, List.map, List.foldl])
    (by norm_num [padding]) (by norm_num [padding]) (by norm_num)
  exact ⟨h.1, h.2 7⟩

/-- Counterexample to claim C6 as stated: with an empty track the
transform maps 3 to NaN, not to 3 — it is a constant-NaN mapping, not
the identity. -/
theorem transform_empty_not_identity :
    jsTransformX 1200 800 1 [] none [] 0 3 = JSNum.nan ∧
    jsTransformX 1200 800 1 [] none [] 0 3 ≠ JSNum.finite 3 ∧
    jsTransformY 1200 800 1 [] none [] 0 7 = JSNum.nan ∧
    jsTransformY 1200 800 1 [] none [] 0 7 ≠ JSNum.finite 7 := by
  have htx : jsTransformX 1200 800 1 [] none [] 0 3 = JSNum.nan := by
    norm_num [jsTransformX, jsCenterX, carForFollow, jsScale,
      jsBaseScale, trackMaxX, trackMinX, trackMaxY, trackMinY,
      jsMaxList, jsMinList, padding, JSNum.sub, JSNum.add, JSNum.neg,
      JSNum.div, JSNum.min2, JSNum.mul, List.map, List.foldl]
  have hty : jsTransformY 1200 800 1 [] none [] 0 7 = JSNum.nan := by
    norm_num [jsTransformY, jsCenterY, carForFollow, jsScale,
      jsBaseScale, trackMaxX, trackMinX, trackMaxY, trackMinY,
      jsMaxList, jsMinList, padding, JSNum.sub, JSNum.add, JSNum.neg,
      JSNum.div, JSNum.min2, JSNum.mul, List.map, List.foldl]
  exact ⟨htx, by simp [htx], hty, by simp [hty]⟩

/-- Claim C6 as amended: for a track with zero points the transform
degenerates to the constant-NaN mapping (the empty spread min/max give
an infinite bounding box, the scale collapses to 0 and the centering to
NaN), so every point maps to NaN — nothing is drawn at a real position
and no fault is raised, but the mapping is not the identity. -/
theorem transform_empty_nan (W H zoom panx pany x y : ℚ) :
    jsTransformX W H zoom [] none [] panx x = JSNum.nan ∧
    jsTransformY W H zoom [] none [] pany y = JSNum.nan := by
  have hbs : jsBaseScale W H [] = JSNum.finite 0 := by
    rw [jsBaseScale]
    simp [trackMaxX, trackMinX, trackMaxY, trackMinY, jsMaxList,
      jsMinList, JSNum.sub, JSNum.add, JSNum.neg, JSNum.div, JSNum.min2]
  have hsc : jsScale W H zoom [] = JSNum.finite 0 := by
    rw [jsScale, hbs, JSNum.mul_finite, zero_mul]
  have hcx : jsCenterX W H zoom [] none [] panx = JSNum.nan := by
    rw [jsCenterX]
    simp only [carForFollow]
    rw [hsc]
    simp [trackMaxX, trackMinX, jsMaxList, jsMinList, JSNum.sub,
      JSNum.add, JSNum.neg, JSNum.mul]
  have hcy : jsCenterY W H zoom [] none [] pany = JSNum.nan := by
    rw [jsCenterY]
    simp only [carForFollow]
    rw [hsc]
    simp [trackMaxY, trackMinY, jsMaxList, jsMinList, JSNum.sub,
      JSNum.add, JSNum.neg, JSNum.mul]
  constructor
  · rw [jsTransformX, hcx, JSNum.add_nan]
  · rw [jsTransformY, hcy, JSNum.add_nan]

/-- Claim C5: on every track with a positive-extent bounding box the
render scale is the finite rational `min((W - 2*60)/width,
(H - 2*60)/height) * zoom` — the smaller padded fit quotient, aspect
ratio preserved, times the zoom — and with no followed car and zero pan
the transform maps the bounding-box centroid exactly to the
render-surface center. -/
theorem computeTransform_scale_centroid (W H zoom : ℚ)
    (pts : List (ℚ × ℚ)) (hne : pts ≠ [])
    (hw : 0 < qMaxX pts - qMinX pts) (hh : 0 < qMaxY pts - qMinY pts) :
    jsScale W H zoom pts
      = JSNum.finite
          (min ((W - 2 * padding) / (qMaxX pts - qMinX pts))
            ((H - 2 * padding) / (qMaxY pts - qMinY pts)) * zoom) ∧
    jsTransformX W H zoom pts none [] 0 ((qMinX pts + qMaxX pts) / 2)
      = JSNum.finite (W / 2) ∧
    jsTransformY W H zoom pts none [] 0 ((qMinY pts + qMaxY pts) / 2)
      = JSNum.finite (H / 2) := by
  obtain ⟨p, l, rfl⟩ := List.exists_cons_of_ne_nil hne
  have hscale : jsScale W H zoom (p :: l)
      = JSNum.finite
          (min ((W - 2 * padding) / (qMaxX (p :: l) - qMinX (p :: l)))
            ((H - 2 * padding) / (qMaxY (p :: l) - qMinY (p :: l)))
            * zoom) := by
    rw [jsScale, jsBaseScale, trackMaxX_nonempty, trackMinX_nonempty,
      trackMaxY_nonempty, trackMinY_nonempty, JSNum.sub_finite,
      JSNum.sub_finite, JSNum.div_finite _ hw.ne',
      JSNum.div_finite _ hh.ne', JSNum.min2_finite, JSNum.mul_finite]
  refine ⟨hscale, ?_, ?_⟩
  · rw [jsTransformX, jsCenterX]
    simp only [carForFollow]
    rw [trackMaxX_nonempty, trackMinX_nonempty, hscale]
    simp only [JSNum.sub_finite, JSNum.mul_finite,
      JSNum.div_finite _ (two_ne_zero : (2 : ℚ) ≠ 0), JSNum.add_finite]
    exact congrArg JSNum.finite (by ring)
  · rw [jsTransformY, jsCenterY]
    simp only [carForFollow]
    rw [trackMaxY_nonempty, trackMinY_nonempty, hscale]
    simp only [JSNum.sub_finite, JSNum.mul_finite,
      JSNum.div_finite _ (two_ne_zero : (2 : ℚ) ≠ 0), JSNum.add_finite]
    exact congrArg JSNum.finite (by ring)

/-- Witness for `computeTransform_scale_centroid`: the spec scenario —
the 10 by 10 square track on an 800 by 600 surface at zoom 1, pan 0, no
followed car, has scale 48 and maps the centroid (5,5) exactly to
(400,300). -/
theorem computeTransform_scale_centroid_witness :
    jsScale 800 600 1 squareTrack = JSNum.finite 48 ∧
    jsTransformX 800 600 1 squareTrack none [] 0 5 = JSNum.finite 400 ∧
    jsTransformY 800 600 1 squareTrack none [] 0 5 = JSNum.finite 300 := by
  have h := computeTransform_scale_centroid 800 600 1 squareTrack
    (by simp [squareTrack])
    (by norm_num [qMaxX, qMinX, qFold, squareTrack, List.map, List.foldl])
    (by norm_num [qMaxY, qMinY, qFold, squareTrack, List.map, List.foldl])
  have hcx : ((qMinX squareTrack + qMaxX squareTrack) / 2 : ℚ) = 5 := by
    norm_num [qMinX, qMaxX, qFold, squareTrack]
  have hcy : ((qMinY squareTrack + qMaxY squareTrack) / 2 : ℚ) = 5 := by
    norm_num [qMinY, qMaxY, qFold, squareTrack]
  refine ⟨?_, ?_, ?_⟩
  · rw [h.1]
    norm_num [qMinX, qMaxX, qMinY, qMaxY, qFold, squareTrack, padding]
  · have h2 := h.2.1
    rw [hcx] at h2
    rw [h2]
    norm_num
  · have h3 := h.2.2
    rw [hcy] at h3
    rw [h3]
    norm_num

/-- Claim C1, evaluated: the `Car3D` normalization
`((angleDiff + PI) % (2 PI)) - PI` uses the sign-preserving JavaScript
remainder, so at current heading `pi - 0.01` and target `-pi + 0.01` it
returns `-2 pi + 0.02` — a value below `-pi`, a near-full-circle
rotation — instead of the shortest signed difference `+0.02` promised by
the claim and by the comment in the code itself. -/
theorem angleToHeadingDelta_wraparound_eval :
    angleToHeadingDelta (Real.pi - 1/100) (-Real.pi + 1/100)
      = -(2 * Real.pi) + 1/50 ∧
    angleToHeadingDelta (Real.pi - 1/100) (-Real.pi + 1/100)
      < -Real.pi := by
  have hpi : (3 : ℝ) < Real.pi := Real.pi_gt_three
  have h2pi : (0 : ℝ) < 2 * Real.pi := by linarith
  have key : angleToHeadingDelta (Real.pi - 1/100) (-Real.pi + 1/100)
      = -(2 * Real.pi) + 1/50 := by
    rw [angleToHeadingDelta, jsRem]
    have ha : ((-Real.pi + 1/100) - (Real.pi - 1/100)) + Real.pi
        = -Real.pi + 1/50 := by ring
    rw [ha, jsTrunc]
    have hneg : (-Real.pi + 1/50) / (2 * Real.pi) < 0 :=
      div_neg_of_neg_of_pos (by linarith) h2pi
    rw [if_neg (not_le.mpr hneg)]
    have hceil : ⌈(-Real.pi + 1/50) / (2 * Real.pi)⌉ = 0 := by
      rw [Int.ceil_eq_zero_iff, Set.mem_Ioc]
      constructor
      · rw [lt_div_iff₀ h2pi]
        linarith
      · exact le_of_lt hneg
    rw [hceil]
    push_cast
    ring
  exact ⟨key, by rw [key]; linarith⟩

end Nopium
